import Mathlib

/-!
# Verification of the Tacotron2 decoder and location-sensitive attention

A shallow embedding of `tacotron2/attention.py` and `tacotron2/decoder.py`
(repository sooftware/Tacotron2).  Tensors are nested lists of real numbers
(`Vec`, `Mat`, `Tens3`); fallible Python operations (dict lookups, `.item()`,
`torch.cat` with mismatched ranks, attribute access on `None`, `torch.stack`
of an empty list) return `Except String`.  Randomness (the `random.random()`
teacher-forcing draw and the `F.dropout` masks) is passed as explicit
arguments.  The `torch` building blocks (`softmax`, `sigmoid`, `tanh`,
`Conv1d`, `LSTMCell`, `dropout`, `view`, `transpose`, `stack`, `bmm`) are
translated from their standard framework semantics; the repository modules
`tacotron2.modules.Linear` and `tacotron2.prenet.PreNet`, whose files are not
part of the sources at hand, are modelled from the specification (see their
doc comments).
-/

noncomputable section

namespace Tacotron2

/-- A 1-D tensor: a list of real entries. -/
abbrev Vec := List ℝ

/-- A 2-D tensor, e.g. `(batch, dim)`: a list of rows. -/
abbrev Mat := List Vec

/-- A 3-D tensor, e.g. `(batch, time, dim)`. -/
abbrev Tens3 := List Mat

/-- A dynamically ranked tensor value, mirroring Python's dynamic typing:
`torch` tensors of rank 1, 2 or 3 as they flow through the decoder. -/
inductive PyTensor where
  | t1 (v : Vec)
  | t2 (m : Mat)
  | t3 (t : Tens3)
deriving Inhabited

/-- Entry of a vector, `0` out of range (only in-range entries are used by
the theorems). -/
def vget (v : Vec) (i : Nat) : ℝ := v.getD i 0

/-- Entry of a matrix. -/
def mget (m : Mat) (i j : Nat) : ℝ := vget (m.getD i []) j

/-- Elementwise sum of two vectors (`torch` addition of same-shaped tensors;
on the inputs used here the lengths agree). -/
def vecAdd (x y : Vec) : Vec := List.zipWith (· + ·) x y

/-- Elementwise sum of two matrices. -/
def matAdd (x y : Mat) : Mat := List.zipWith vecAdd x y

/-- Elementwise (Hadamard) product of two vectors. -/
def vecMul (x y : Vec) : Vec := List.zipWith (· * ·) x y

/-- Dot product of two vectors. -/
def dot (x y : Vec) : ℝ := (List.zipWith (· * ·) x y).sum

/-- Matrix–vector product: one output entry per matrix row. -/
def matVec (w : Mat) (x : Vec) : Vec := w.map (fun r => dot r x)

/-- All-zero vector, `torch.new_zeros(n)`. -/
def zerosVec (n : Nat) : Vec := List.replicate n 0

/-- All-zero matrix, `torch.new_zeros(r, c)`. -/
def zerosMat (r c : Nat) : Mat := List.replicate r (zerosVec c)

/-- `m` has `r` rows, each of length `c`. -/
def MatShape (m : Mat) (r c : Nat) : Prop :=
  m.length = r ∧ ∀ row ∈ m, row.length = c

instance (m : Mat) (r c : Nat) : Decidable (MatShape m r c) := by
  unfold MatShape; infer_instance

/-- `x` has `b` matrices of shape `r × c`. -/
def Tens3Shape (x : Tens3) (b r c : Nat) : Prop :=
  x.length = b ∧ ∀ m ∈ x, MatShape m r c

instance (x : Tens3) (b r c : Nat) : Decidable (Tens3Shape x b r c) := by
  unfold Tens3Shape; infer_instance

/-- `torch.sigmoid`. -/
def sigmoid (x : ℝ) : ℝ := 1 / (1 + Real.exp (-x))

/-- `torch.nn.functional.softmax(x, dim=-1)` on one row: exponentiate and
normalize by the sum of exponentials. -/
def softmax (x : Vec) : Vec :=
  let s := (x.map Real.exp).sum
  x.map (fun xi => Real.exp xi / s)

/-- Rectified linear unit. -/
def relu (x : ℝ) : ℝ := max x 0

/-- `x.map` with the element index, structural recursion so that concrete
instances reduce. -/
def mapWithIdx (f : Nat → α → β) : Nat → List α → List β
  | _, [] => []
  | i, x :: xs => f i x :: mapWithIdx f (i + 1) xs

/-- A sampled dropout mask: for each entry position, whether the entry is
kept.  `torch.nn.functional.dropout` samples such a mask internally; the
embedding receives the sample explicitly. -/
abbrev DropMask := Nat → Nat → Bool

/-- `torch.nn.functional.dropout(x, p)` on a 2-D tensor with the sampled
keep-mask made explicit: kept entries are scaled by `1 / (1 - p)`, dropped
entries become `0`. -/
def F_dropout (p : ℝ) (mask : DropMask) (x : Mat) : Mat :=
  mapWithIdx (fun i row => mapWithIdx (fun j v => if mask i j then v / (1 - p) else 0) 0 row) 0 x

/-- Split a list into consecutive chunks of length `n` (fuel-based structural
recursion; `n = 0` gives `[]`).  Used to model `torch.view`. -/
def chunkFuel : Nat → Nat → List α → List (List α)
  | 0, _, _ => []
  | _ + 1, _, [] => []
  | _ + 1, 0, _ :: _ => []
  | fuel + 1, n + 1, x :: xs =>
      ((x :: xs).take (n + 1)) :: chunkFuel fuel (n + 1) ((x :: xs).drop (n + 1))

/-- Split a list into consecutive chunks of length `n`. -/
def chunkList (n : Nat) (l : List α) : List (List α) := chunkFuel l.length n l

/-- Flatten a 3-D tensor into its contiguous entry list. -/
def flat3 (x : Tens3) : Vec := (x.map (fun m => m.flatten)).flatten

/-- `x.view(d0, d1, -1)`: reshape a contiguous 3-D tensor to
`(d0, d1, numel / (d0 * d1))`. -/
def torchView3Last (x : Tens3) (d0 d1 : Nat) : Tens3 :=
  let fl := flat3 x
  let d2 := fl.length / (d0 * d1)
  (chunkList (d1 * d2) fl).map (chunkList d2)

/-- `x.view(d0, -1, d2)`: reshape a contiguous 3-D tensor to
`(d0, numel / (d0 * d2), d2)`. -/
def torchView3Mid (x : Tens3) (d0 d2 : Nat) : Tens3 :=
  let fl := flat3 x
  let d1 := fl.length / (d0 * d2)
  (chunkList (d1 * d2) fl).map (chunkList d2)

/-- 2-D transpose. -/
def transposeMat (m : Mat) : Mat :=
  (List.range (m.headD []).length).map (fun j => m.map (fun r => r.getD j 0))

/-- `torch.stack(l).transpose(0, 1)` for a list of same-shaped 2-D tensors:
the stack is the list itself read as `(T, b, c)`; transposing the first two
dims gives `(b, T, c)`. -/
def stackTranspose01 (l : List Mat) : Tens3 :=
  (List.range (l.headD []).length).map (fun b => l.map (fun m => m.getD b []))

/-- `tensor.item()`: succeeds exactly on a single-entry 2-D tensor. -/
def item2d (m : Mat) : Option ℝ :=
  match m with
  | [[v]] => some v
  | _ => none

/-- `torch.squeeze(dim=1)`: drops dimension 1 when its size is 1 (`torch`
reads the size off the uniform shape, here off the first element). -/
def squeeze1 : PyTensor → PyTensor
  | .t3 x => if (x.headD []).length = 1 then .t2 (x.map (fun m => m.headD [])) else .t3 x
  | .t2 m => if (m.headD []).length = 1 then .t1 (m.map (fun r => r.headD 0)) else .t2 m
  | .t1 v => .t1 v

/-- `torch.cat((a, b), dim=-1)` where `b` is 2-D: succeeds only when `a` is
also 2-D, concatenating rows; otherwise the rank mismatch is a runtime
error, as in `torch`. -/
def catLastDim : PyTensor → Mat → Except String Mat
  | .t2 a, b => .ok (List.zipWith (· ++ ·) a b)
  | _, _ => .error "RuntimeError: Tensors must have same number of dimensions"

/-- One-dimensional convolution (`torch.nn.Conv1d`, no bias) on a single
batch element `x : (channels, L)` with weights `(filters, channels, K)` and
symmetric zero padding `pad`; output `(filters, L + 2*pad + 1 - K)`. -/
def conv1dOne (w : List Mat) (pad : Nat) (x : Mat) : Mat :=
  let L := (x.headD []).length
  let K := ((w.headD []).headD []).length
  let outLen := L + 2 * pad + 1 - K
  w.map (fun wf =>
    (List.range outLen).map (fun t =>
      (List.zipWith (fun wc xc =>
        ((List.range K).map (fun k =>
          wc.getD k 0 * (if t + k < pad then 0 else xc.getD (t + k - pad) 0))).sum) wf x).sum))

/-- Parameters of `torch.nn.LSTMCell(input_size, hid)`:
stacked gate weights `(4*hid, input_size)` and `(4*hid, hid)` plus the two
stacked gate biases of length `4*hid`. -/
structure LSTMCellParams where
  w_ih : Mat
  w_hh : Mat
  b_ih : Vec
  b_hh : Vec
  hid : Nat

/-- `torch.nn.LSTMCell` on one batch row: gate preactivations
`W_ih x + b_ih + W_hh h + b_hh` split into input, forget, cell and output
gates; returns the new hidden and cell states. -/
def lstmCellRow (p : LSTMCellParams) (x h c : Vec) : Vec × Vec :=
  let g := vecAdd (vecAdd (matVec p.w_ih x) p.b_ih) (vecAdd (matVec p.w_hh h) p.b_hh)
  let i := (g.take p.hid).map sigmoid
  let f := ((g.drop p.hid).take p.hid).map sigmoid
  let gg := ((g.drop (2 * p.hid)).take p.hid).map Real.tanh
  let o := ((g.drop (3 * p.hid)).take p.hid).map sigmoid
  let cNew := vecAdd (vecMul f c) (vecMul i gg)
  let hNew := vecMul o (cNew.map Real.tanh)
  (hNew, cNew)

/-- `torch.nn.LSTMCell` on a batch: rowwise application. -/
def lstmCell (p : LSTMCellParams) (x h c : Mat) : Mat × Mat :=
  let pairs := List.zipWith (fun xr (hc : Vec × Vec) => lstmCellRow p xr hc.1 hc.2) x (List.zip h c)
  (pairs.map Prod.fst, pairs.map Prod.snd)

/-- Modelled from the spec: `tacotron2.modules.Linear` (file not among the
sources at hand) — a standard affine projection used by the spec's
"linear projections", with an optional bias. -/
structure LinearParams where
  weight : Mat
  bias : Option Vec

/-- Apply the linear projection to the last axis of a 1-D input. -/
def LinearParams.apply (p : LinearParams) (v : Vec) : Vec :=
  match p.bias with
  | none => matVec p.weight v
  | some b => vecAdd (matVec p.weight v) b

/-- Modelled from the spec: `tacotron2.prenet.PreNet` (file not among the
sources at hand) — "a small feature-transform network applied to each frame
before it enters the recurrence", with a configured width and dropout
probability: an affine map to the prenet width, a ReLU, and dropout. -/
structure PreNetParams where
  lin : LinearParams
  p : ℝ

/-- PreNet on one frame, with the dropout keep-mask explicit. -/
def preNetVec (pn : PreNetParams) (mask : Nat → Bool) (v : Vec) : Vec :=
  mapWithIdx (fun j x => if mask j then x / (1 - pn.p) else 0) 0 ((pn.lin.apply v).map relu)

/-- PreNet applied along the last axis of a tensor of any rank (the decoder
calls it on 2-D and 3-D inputs).  The mask is indexed by the two leading
positions. -/
def preNet (pn : PreNetParams) (mask : Nat → Nat → Nat → Bool) : PyTensor → PyTensor
  | .t1 v => .t1 (preNetVec pn (mask 0 0) v)
  | .t2 m => .t2 (mapWithIdx (fun b r => preNetVec pn (mask 0 b) r) 0 m)
  | .t3 x => .t3 (mapWithIdx (fun b m => mapWithIdx (fun t r => preNetVec pn (mask b t) r) 0 m) 0 x)

/-- Three-way `zipWith`, structural so concrete instances reduce. -/
def zip3W (f : α → β → γ → δ) : List α → List β → List γ → List δ
  | a :: as, b :: bs, c :: cs => f a b c :: zip3W f as bs cs
  | _, _, _ => []

/-- Broadcast addition of two 2-D tensors over the leading axis (`torch`
broadcasting: a size-1 leading dimension is expanded to match the other
operand). -/
def bcastAdd (x y : Mat) : Mat :=
  if x.length = 1 then y.map (fun r => vecAdd (x.headD []) r)
  else if y.length = 1 then x.map (fun r => vecAdd r (y.headD []))
  else matAdd x y

/-- `tacotron2/attention.py`, `LocationSensitiveAttention.__init__`:
`query_proj = Linear(lstm_hidden_dim, attn_dim, bias=False)`,
`value_proj = Linear(embedding_dim, attn_dim, bias=False)`,
`align_proj = Linear(attn_dim, 1, bias=True)`, a learned bias vector of
length `attn_dim`, `location_conv = Conv1d(2, filter_size, kernel,
padding=(kernel-1)/2, bias=False)` (weights `(filters, 2, K)`), and
`location_proj = Linear(filter_size, attn_dim, bias=False)`. -/
structure LocationSensitiveAttention where
  attn_dim : Nat
  query_proj : LinearParams
  value_proj : LinearParams
  align_proj : LinearParams
  bias : Vec
  location_conv : List Mat
  location_conv_kernel_size : Nat
  location_proj : LinearParams

/-- `LocationSensitiveAttention.forward` (attention.py lines 68-87):
convolve and project the 2-channel alignment history, project query and
value into the attention space, sum with broadcasting plus the learned
bias, apply tanh, reduce each position to a scalar energy via `align_proj`
(`Linear(attn_dim, 1)`, so `squeeze(-1)` reads off its single output
entry), softmax along the value-sequence axis, and form the context by
`torch.bmm(alignment.unsqueeze(1), value).squeeze(1)` (a weighted sum of
the value rows per batch element). -/
def LocationSensitiveAttention.forward (p : LocationSensitiveAttention)
    (query : Mat) (value : Tens3) (last_alignment : Tens3) : Mat × Mat :=
  let pad := (p.location_conv_kernel_size - 1) / 2
  let la1 := last_alignment.map (conv1dOne p.location_conv pad)
  let la2 := la1.map transposeMat
  let la3 := la2.map (fun m => m.map p.location_proj.apply)
  let qp := query.map (fun r => [p.query_proj.apply r])
  let vp := value.map (fun m => m.map p.value_proj.apply)
  let preact := zip3W (fun q v l => (bcastAdd (bcastAdd q v) l).map (fun r => vecAdd r p.bias)) qp vp la3
  let energies := preact.map (fun m => m.map (fun r => vget (p.align_proj.apply (r.map Real.tanh)) 0))
  let alignment := energies.map softmax
  let context := List.zipWith (fun (ar : Vec) (vb : Mat) =>
      (List.range ((vb.headD []).length)).map
        (fun j => (List.zipWith (fun a r => a * vget r j) ar vb).sum)) alignment value
  (context, alignment)

/-- `tacotron2/decoder.py`, `Decoder.__init__`: configuration and
submodules. -/
structure Decoder where
  num_mel_bins : Nat
  max_decoding_step : Nat
  decoder_lstm_dim : Nat
  attn_lstm_dim : Nat
  embedding_dim : Nat
  attn_dropout_p : ℝ
  decoder_dropout_p : ℝ
  stop_threshold : ℝ
  prenet : PreNetParams
  lstm0 : LSTMCellParams
  lstm1 : LSTMCellParams
  attention : LocationSensitiveAttention
  mel_generator : LinearParams
  stop_generator : LinearParams

/-- The per-call decoder state dictionary created by
`Decoder._init_decoder_states` and threaded through `forward_step`. -/
structure DecoderState where
  lstm_outputs : List Mat
  lstm_hiddens : List Mat
  alignment : Mat
  alignment_cum : Mat
  context : Mat

/-- `Decoder._init_decoder_states` (decoder.py lines 94-117): zero LSTM
output/hidden pairs for both layers, a zero alignment, a zero cumulative
alignment, and a zero context, sized from the encoder outputs. -/
def Decoder.init_decoder_states (d : Decoder) (encoder_outputs : Tens3) : DecoderState :=
  let batch_size := encoder_outputs.length
  let seq_length := (encoder_outputs.headD []).length
  { lstm_outputs := [zerosMat batch_size d.attn_lstm_dim, zerosMat batch_size d.decoder_lstm_dim]
    lstm_hiddens := [zerosMat batch_size d.attn_lstm_dim, zerosMat batch_size d.decoder_lstm_dim]
    alignment := zerosMat batch_size seq_length
    alignment_cum := zerosMat batch_size seq_length
    context := zerosMat batch_size d.embedding_dim }

/-- A value stored in the Python dict returned by `forward_step`: a tensor
or a list of tensors. -/
inductive PyObj where
  | mat (m : Mat)
  | mats (l : List Mat)

/-- The dict returned by `Decoder.forward_step` (decoder.py lines 162-170). -/
structure StepResult where
  mel_output : Mat
  stop_output : Mat
  state : DecoderState

/-- Lookup in the `forward_step` result dict, with exactly the keys written
at decoder.py lines 162-170; any other key is a `KeyError` (`none`). -/
def StepResult.get (r : StepResult) : String → Option PyObj
  | "mel_output" => some (.mat r.mel_output)
  | "stop_output" => some (.mat r.stop_output)
  | "alignment" => some (.mat r.state.alignment)
  | "alignment_cum" => some (.mat r.state.alignment_cum)
  | "context" => some (.mat r.state.context)
  | "lstm_outputs" => some (.mats r.state.lstm_outputs)
  | "lstm_hiddens" => some (.mats r.state.lstm_hiddens)
  | _ => none

/-- `Decoder.forward_step` (decoder.py lines 133-170): squeeze the input
frame, concatenate with the context (a rank mismatch here is a `torch`
error), run the first LSTM cell plus dropout, build the 2-channel
(previous, cumulative) alignment, query the attention, accumulate the
alignment into the running sum, run the second LSTM cell plus dropout, and
project `cat(lstm_hiddens[1], context)` to the mel frame and stop logit. -/
def Decoder.forward_step (d : Decoder) (input_var : PyTensor) (encoder_outputs : Tens3)
    (st : DecoderState) (mask1 mask2 : DropMask) : Except String StepResult :=
  match catLastDim (squeeze1 input_var) st.context with
  | .error e => .error e
  | .ok input_var2 =>
    let hc0 := lstmCell d.lstm0 input_var2 (st.lstm_outputs.getD 0 []) (st.lstm_hiddens.getD 0 [])
    let h0 := F_dropout d.attn_dropout_p mask1 hc0.1
    let concated_alignment := List.zipWith (fun (a ca : Vec) => [a, ca]) st.alignment st.alignment_cum
    let ctxAl := d.attention.forward h0 encoder_outputs concated_alignment
    let alignment_cum := matAdd st.alignment_cum ctxAl.2
    let input_var3 := List.zipWith (· ++ ·) h0 ctxAl.1
    let hc1 := lstmCell d.lstm1 input_var3 (st.lstm_outputs.getD 1 []) (st.lstm_hiddens.getD 1 [])
    let h1 := F_dropout d.decoder_dropout_p mask2 hc1.1
    let output := List.zipWith (· ++ ·) hc1.2 ctxAl.1
    .ok { mel_output := output.map d.mel_generator.apply
          stop_output := output.map d.stop_generator.apply
          state := { lstm_outputs := [h0, h1]
                     lstm_hiddens := [hc0.2, hc1.2]
                     alignment := ctxAl.2
                     alignment_cum := alignment_cum
                     context := ctxAl.1 } }

/-- decoder.py line 239 tests `input is None`, where `input` is the Python
builtin function `input` (the parameter is named `inputs`); the builtin is
never `None`, so the tested condition is the constant `False`. -/
def pythonBuiltinInputIsNone : Bool := false

/-- `Decoder.validate_args` (decoder.py lines 229-254).  The branch guarded
by `input is None` builds a go-frame input and would reject a positive
teacher-forcing ratio with a `ValueError`; because of
`pythonBuiltinInputIsNone` it is never taken, and the "training" branch
runs for every call: with `inputs = None` the attribute access
`inputs.view` fails, otherwise the go frame is prepended along dim 1 and
the step budget is `inputs.size(1) - 1`. -/
def Decoder.validate_args (d : Decoder) (encoder_outputs : Tens3) (inputs : Option Tens3)
    ( tf_prob : ℝ) : Except String (PyTensor × Nat) :=
  let batch_size := encoder_outputs.length
  if pythonBuiltinInputIsNone then
    if tf_prob > 0 then
      .error "ValueError: Teacher forcing has to be disabled (set 0) when no inputs is provided."
    else
      .ok (.t2 (zerosMat batch_size d.num_mel_bins), d.max_decoding_step)
  else
    match inputs with
    | none => .error "AttributeError: NoneType object has no attribute view"
    | some inp =>
      let go_frame := (zerosMat batch_size d.num_mel_bins).map (fun r => [r])
      let inp2 := torchView3Last inp batch_size (inp.headD []).length
      let inputs2 := List.zipWith (· ++ ·) go_frame inp2
      .ok (.t3 inputs2, (inputs2.headD []).length - 1)

/-- The dict returned by `Decoder.forward` via `parse_decoder_outputs`. -/
structure DecoderOutputs where
  mel_outputs : Tens3
  stop_outputs : Tens3
  alignments : Tens3

/-- `Decoder.parse_decoder_outputs` (decoder.py lines 119-131): stack each
collected list along a new leading time axis and move the batch axis first
(`torch.stack` rejects an empty list); the mel stack is additionally
reshaped to `(batch, -1, num_mel_bins)` and transposed to
`(batch, num_mel_bins, time)`. -/
def Decoder.parse_decoder_outputs (d : Decoder)
    (mel_outputs stop_outputs alignments : List Mat) : Except String DecoderOutputs :=
  if stop_outputs.isEmpty then .error "RuntimeError: stack expects a non-empty TensorList"
  else if alignments.isEmpty then .error "RuntimeError: stack expects a non-empty TensorList"
  else if mel_outputs.isEmpty then .error "RuntimeError: stack expects a non-empty TensorList"
  else
    let mel2 := stackTranspose01 mel_outputs
    let mel3 := torchView3Mid mel2 mel2.length d.num_mel_bins
    .ok { mel_outputs := mel3.map transposeMat
          stop_outputs := stackTranspose01 stop_outputs
          alignments := stackTranspose01 alignments }

/-- `inputs[:, di, :].unsqueeze(1)` (decoder.py line 188): slicing a 3-D
tensor at time `di` and restoring a singleton time axis; on a lower-rank
tensor the indexing itself fails. -/
def sliceDim1 (x : PyTensor) (di : Nat) : Except String PyTensor :=
  match x with
  | .t3 t => .ok (.t3 (t.map (fun m => [m.getD di []])))
  | _ => .error "IndexError: too many indices for tensor"

/-- The teacher-forced loop of `Decoder.forward` (decoder.py lines
187-201), with the step index, remaining iterations and the three output
accumulators explicit.  Line 199 appends `decoder_states["mel_outputs"]`,
a key the step dict does not have, so the lookup is modelled through
`StepResult.get`. -/
def Decoder.teacherLoop (d : Decoder) (encoder_outputs : Tens3) (inputsP : PyTensor)
    (masks : Nat → DropMask × DropMask) :
    Nat → Nat → DecoderState → List Mat → List Mat → List Mat →
    Except String (List Mat × List Mat × List Mat)
  | _, 0, _, accMel, accStop, accAlign => .ok (accMel, accStop, accAlign)
  | di, fuel + 1, st, accMel, accStop, accAlign =>
    match sliceDim1 inputsP di with
    | .error e => .error e
    | .ok input_var =>
      match d.forward_step input_var encoder_outputs st (masks di).1 (masks di).2 with
      | .error e => .error e
      | .ok r =>
        match r.get "mel_outputs" with
        | none => .error "KeyError: mel_outputs"
        | some (.mats _) => .error "TypeError: expected a tensor"
        | some (.mat m) =>
          d.teacherLoop encoder_outputs inputsP masks (di + 1) fuel r.state
            (accMel ++ [m]) (accStop ++ [r.stop_output]) (accAlign ++ [r.state.alignment])

/-- The autoregressive loop of `Decoder.forward` (decoder.py lines
203-225): prenet the previous frame, run a step, append its mel frame,
stop logit and alignment (these dict keys exist, so plain projections),
then stop early when `sigmoid(stop_output).item()` exceeds the threshold
(`.item()` itself fails on a tensor with more than one entry), else feed
the predicted frame back. -/
def Decoder.autoLoop (d : Decoder) (encoder_outputs : Tens3)
    (pmask : Nat → Nat → Nat → Nat → Bool) (masks : Nat → DropMask × DropMask) :
    Nat → Nat → DecoderState → PyTensor → List Mat → List Mat → List Mat →
    Except String (List Mat × List Mat × List Mat)
  | _, 0, _, _, accMel, accStop, accAlign => .ok (accMel, accStop, accAlign)
  | di, fuel + 1, st, input_var, accMel, accStop, accAlign =>
    match d.forward_step (preNet d.prenet (pmask di) input_var) encoder_outputs st
        (masks di).1 (masks di).2 with
    | .error e => .error e
    | .ok r =>
      let accMel2 := accMel ++ [r.mel_output]
      let accStop2 := accStop ++ [r.stop_output]
      let accAlign2 := accAlign ++ [r.state.alignment]
      match item2d (r.stop_output.map (fun row => row.map sigmoid)) with
      | none => .error "RuntimeError: a Tensor with more than one element cannot be converted to a scalar"
      | some v =>
        if d.stop_threshold < v then .ok (accMel2, accStop2, accAlign2)
        else
          d.autoLoop encoder_outputs pmask masks (di + 1) fuel r.state (.t2 r.mel_output)
            accMel2 accStop2 accAlign2

/-- `Decoder.forward` (decoder.py lines 172-227).  The call to
`random.random()` at line 179 and the dropout masks are passed in
explicitly (`randomDraw`, `pmask`, `masks`); a single draw below the
teacher-forcing ratio selects the teacher-forced loop for the whole call.
`validate_args` runs before either loop; the collected outputs go through
`parse_decoder_outputs`. -/
def Decoder.forward (d : Decoder) (encoder_outputs : Tens3) (inputs : Option Tens3)
    ( tf_prob : ℝ) (randomDraw : ℝ)
    (pmask : Nat → Nat → Nat → Nat → Bool) (masks : Nat → DropMask × DropMask) :
    Except String DecoderOutputs :=
  let use_teacher_forcing : Bool := if randomDraw < tf_prob then true else false
  match d.validate_args encoder_outputs inputs tf_prob with
  | .error e => .error e
  | .ok im =>
    let decoder_states := d.init_decoder_states encoder_outputs
    if use_teacher_forcing then
      let inputsP := preNet d.prenet (pmask 0) im.1
      match d.teacherLoop encoder_outputs inputsP masks 0 im.2 decoder_states [] [] [] with
      | .error e => .error e
      | .ok acc => d.parse_decoder_outputs acc.1 acc.2.1 acc.2.2
    else
      match d.autoLoop encoder_outputs pmask masks 0 im.2 decoder_states im.1 [] [] [] with
      | .error e => .error e
      | .ok acc => d.parse_decoder_outputs acc.1 acc.2.1 acc.2.2

/-! ## Concrete fixtures for evaluating the embedding -/

/-- A dropout keep-mask that keeps every entry (for the prenet call sites). -/
def keepAll3 : Nat → Nat → Nat → Nat → Bool := fun _ _ _ _ => true

/-- Per-step keep-masks for the two in-step dropout sites. -/
def keepAll : Nat → DropMask × DropMask := fun _ => (fun _ _ => true, fun _ _ => true)

/-- A concrete decoder with unit widths and zero weights
(`num_mel_bins = 1`, both LSTM widths 1, `embedding_dim = 1`,
`attn_dim = 1`, one location filter of kernel size 1,
`max_decoding_step = 10`, `stop_threshold = 1.1`). -/
def dUnit : Decoder :=
  { num_mel_bins := 1
    max_decoding_step := 10
    decoder_lstm_dim := 1
    attn_lstm_dim := 1
    embedding_dim := 1
    attn_dropout_p := 0
    decoder_dropout_p := 0
    stop_threshold := 11 / 10
    prenet := { lin := { weight := [[0]], bias := none }, p := 0 }
    lstm0 := { w_ih := [[0, 0], [0, 0], [0, 0], [0, 0]], w_hh := [[0], [0], [0], [0]],
               b_ih := [0, 0, 0, 0], b_hh := [0, 0, 0, 0], hid := 1 }
    lstm1 := { w_ih := [[0, 0], [0, 0], [0, 0], [0, 0]], w_hh := [[0], [0], [0], [0]],
               b_ih := [0, 0, 0, 0], b_hh := [0, 0, 0, 0], hid := 1 }
    attention := { attn_dim := 1
                   query_proj := { weight := [[0]], bias := none }
                   value_proj := { weight := [[0]], bias := none }
                   align_proj := { weight := [[0]], bias := some [0] }
                   bias := [0]
                   location_conv := [[[0], [0]]]
                   location_conv_kernel_size := 1
                   location_proj := { weight := [[0]], bias := none } }
    mel_generator := { weight := [[0, 0]], bias := none }
    stop_generator := { weight := [[0, 0]], bias := none } }

/-- Encoder outputs of shape `(1, 1, 1)`, all zero. -/
def encUnit : Tens3 := [[[0]]]

/-- Encoder outputs of shape `(2, 5, 1)`, all zero. -/
def enc25 : Tens3 := List.replicate 2 (List.replicate 5 [0])

/-- A target mel tensor of shape `(1, 1, 1)`. -/
def tgt11 : Tens3 := [[[0]]]

/-- A target mel tensor of shape `(2, 3, 1)` (batch 2, target length 3). -/
def tgt23 : Tens3 := List.replicate 2 (List.replicate 3 [0])

/-! ## Claims about `validate_args` (C1, C9) -/

/-- The "training" (targets) branch of `validate_args` (decoder.py lines
246-252) as a standalone function, for comparison with the full
`validate_args`. -/
def Decoder.validate_args_targets_branch (d : Decoder) (encoder_outputs : Tens3)
    (inputs : Option Tens3) : Except String (PyTensor × Nat) :=
  let batch_size := encoder_outputs.length
  match inputs with
  | none => .error "AttributeError: NoneType object has no attribute view"
  | some inp =>
    let go_frame := (zerosMat batch_size d.num_mel_bins).map (fun r => [r])
    let inp2 := torchView3Last inp batch_size (inp.headD []).length
    let inputs2 := List.zipWith (· ++ ·) go_frame inp2
    .ok (.t3 inputs2, (inputs2.headD []).length - 1)

/-- Claim C9: the branch of `Decoder.validate_args` guarded by
`input is None` is unreachable for every call — the condition tests the
Python builtin `input`, never `None` — so every call (whatever the
teacher-forcing ratio) executes the targets branch, and a call with
`inputs = None` fails at the attribute access `inputs.view` rather than in
the guarded inference branch. -/
theorem validate_args_always_takes_targets_branch :
    ∀ (d : Decoder) (encoder_outputs : Tens3) (inputs : Option Tens3) (r : ℝ),
      d.validate_args encoder_outputs inputs r =
        d.validate_args_targets_branch encoder_outputs inputs ∧
      d.validate_args encoder_outputs none r =
        .error "AttributeError: NoneType object has no attribute view" := by
  intro d encoder_outputs inputs r
  constructor
  · rfl
  · rfl

/-- Claim C1 (code bug): calling `validate_args` with `inputs = None` and
teacher-forcing ratio `1 > 0` does not raise the documented `ValueError`
about disabling teacher forcing; it fails with an `AttributeError` from
`inputs.view`, because line 239 tests the builtin `input` instead of the
parameter `inputs`. -/
theorem validate_args_none_raises_attribute_error_not_value_error :
    Decoder.validate_args dUnit encUnit none 1 =
      .error "AttributeError: NoneType object has no attribute view" ∧
    ("AttributeError: NoneType object has no attribute view" ≠
      "ValueError: Teacher forcing has to be disabled (set 0) when no inputs is provided.") := by
  constructor
  · rfl
  · decide

/-! ## Claims about the teacher-forced path (C2, C4) -/

/-- Claim C2 (code bug): a teacher-forced call with a target of length
`L = 1` does not return `L` frames: the first loop iteration reads
`decoder_states["mel_outputs"]` (decoder.py line 199), a key the step dict
does not contain, and the call fails with a `KeyError`. -/
theorem teacher_forced_call_raises_key_error :
    Decoder.forward dUnit encUnit (some tgt11) 1 0 keepAll3 keepAll =
      .error "KeyError: mel_outputs" := by
  unfold Decoder.forward
  rw [if_pos (show (0 : ℝ) < 1 by norm_num)]
  rfl

/-- Claim C4 (code bug): with batch 2, input length 5 and target length 3,
the teacher-forced call does not return frames of shape
`(2, num_mel_bins, 3)` etc.; it fails with the `KeyError` of decoder.py
line 199 in the first loop iteration, before any output is assembled. -/
theorem teacher_forced_shapes_call_raises_key_error :
    Decoder.forward dUnit enc25 (some tgt23) 1 0 keepAll3 keepAll =
      .error "KeyError: mel_outputs" := by
  unfold Decoder.forward
  rw [if_pos (show (0 : ℝ) < 1 by norm_num)]
  rfl

/-! ## Claim about the autoregressive mode entry (C3) -/

/-- Claim C3 (code bug): an autoregressive call (`inputs = None`,
teacher-forcing ratio 0) with `max_decoding_step = 10` and the unreachable
stop threshold `1.1` does not run the loop for 10 steps: it fails in
`validate_args` with the `AttributeError` from `inputs.view` before the
loop is ever entered. -/
theorem autoregressive_call_fails_before_loop :
    Decoder.forward dUnit encUnit none 0 (1 / 2) keepAll3 keepAll =
      .error "AttributeError: NoneType object has no attribute view" := by
  rfl

/-! ## Claim C8: per-call purity -/

/-- Claim C8 (counterexample): two calls to `Decoder.forward` with
identical encoder outputs, targets, teacher-forcing ratio and identical
module parameters do not always produce identical outputs: the mode draw
taken from the global random generator (decoder.py line 179) differs
between calls, and with draws `0` and `1` the two calls take different
branches and fail with different errors. -/
theorem forward_differs_on_hidden_random_draw :
    Decoder.forward dUnit encUnit (some tgt11) (1 / 2) 0 keepAll3 keepAll ≠
      Decoder.forward dUnit encUnit (some tgt11) (1 / 2) 1 keepAll3 keepAll := by
  have h1 : Decoder.forward dUnit encUnit (some tgt11) (1 / 2) 0 keepAll3 keepAll =
      .error "KeyError: mel_outputs" := by
    unfold Decoder.forward
    rw [if_pos (show (0 : ℝ) < 1 / 2 by norm_num)]
    rfl
  have h2 : Decoder.forward dUnit encUnit (some tgt11) (1 / 2) 1 keepAll3 keepAll =
      .error "RuntimeError: Tensors must have same number of dimensions" := by
    unfold Decoder.forward
    rw [if_neg (show ¬((1 : ℝ) < 1 / 2) by norm_num)]
    rfl
  rw [h1, h2]
  simp only [ne_eq, Except.error.injEq]
  decide

/-- Claim C8 (amended): the only influence of the per-call random draw on
`Decoder.forward` is through the single mode comparison
`random.random() < teacher_forcing_ratio`; all decoder state is created
fresh inside the call, so two calls with identical arguments whose draws
fall on the same side of the ratio produce identical outputs. -/
theorem forward_depends_on_draw_only_through_mode_choice
    (d : Decoder) (encoder_outputs : Tens3) (inputs : Option Tens3) ( tf_prob r1 r2 : ℝ)
    (pmask : Nat → Nat → Nat → Nat → Bool) (masks : Nat → DropMask × DropMask)
    (h : r1 < tf_prob ↔ r2 < tf_prob) :
    d.forward encoder_outputs inputs tf_prob r1 pmask masks =
      d.forward encoder_outputs inputs tf_prob r2 pmask masks := by
  unfold Decoder.forward
  by_cases hc : r1 < tf_prob
  · rw [if_pos hc, if_pos (h.mp hc)]
  · rw [if_neg hc, if_neg (fun hx => hc (h.mpr hx))]

/-- Witness for the amended C8 theorem at draws `0` and `1/4` against
ratio `1/2`. -/
theorem forward_depends_on_draw_only_through_mode_choice_witness :
    Decoder.forward dUnit encUnit (some tgt11) (1 / 2) 0 keepAll3 keepAll =
      Decoder.forward dUnit encUnit (some tgt11) (1 / 2) (1 / 4) keepAll3 keepAll :=
  forward_depends_on_draw_only_through_mode_choice dUnit encUnit (some tgt11) (1 / 2) 0 (1 / 4)
    keepAll3 keepAll (by norm_num)

/-! ## Claim C10: the stopping step still contributes its outputs -/

/-- The step index (relative to the current iteration) at which the stop
condition `sigmoid(stop_output).item() > stop_threshold` first holds along
the trajectory of `Decoder.autoLoop`; `none` when no stop occurs within
`fuel` steps or the trajectory fails first. -/
def Decoder.firstStopStep (d : Decoder) (encoder_outputs : Tens3)
    (pmask : Nat → Nat → Nat → Nat → Bool) (masks : Nat → DropMask × DropMask) :
    Nat → Nat → DecoderState → PyTensor → Option Nat
  | _, 0, _, _ => none
  | di, fuel + 1, st, input_var =>
    match d.forward_step (preNet d.prenet (pmask di) input_var) encoder_outputs st
        (masks di).1 (masks di).2 with
    | .error _ => none
    | .ok r =>
      match item2d (r.stop_output.map (fun row => row.map sigmoid)) with
      | none => none
      | some v =>
        if d.stop_threshold < v then some 0
        else (d.firstStopStep encoder_outputs pmask masks (di + 1) fuel r.state
            (.t2 r.mel_output)).map (· + 1)

/-- Claim C10: in the autoregressive loop the termination check runs after
the step's results are appended, so the step at which the stop condition
first holds still contributes its frame, stop logit and alignment: when the
loop returns, each collected list has grown by the index of the first
stopping step plus one (or by the full budget when no step stops). -/
theorem autoreg_loop_length_is_first_stop_plus_one (d : Decoder) (encoder_outputs : Tens3)
    (pmask : Nat → Nat → Nat → Nat → Bool) (masks : Nat → DropMask × DropMask) :
    ∀ (fuel di : Nat) (st : DecoderState) (input_var : PyTensor)
      (accMel accStop accAlign : List Mat) (out : List Mat × List Mat × List Mat),
      d.autoLoop encoder_outputs pmask masks di fuel st input_var accMel accStop accAlign =
        .ok out →
      out.1.length = accMel.length +
          (match d.firstStopStep encoder_outputs pmask masks di fuel st input_var with
           | some i => i + 1
           | none => fuel) ∧
      out.2.1.length = accStop.length +
          (match d.firstStopStep encoder_outputs pmask masks di fuel st input_var with
           | some i => i + 1
           | none => fuel) ∧
      out.2.2.length = accAlign.length +
          (match d.firstStopStep encoder_outputs pmask masks di fuel st input_var with
           | some i => i + 1
           | none => fuel) := by
  intro fuel
  induction fuel with
  | zero =>
    intro di st input_var accMel accStop accAlign out h
    simp only [Decoder.autoLoop] at h
    cases h
    simp [Decoder.firstStopStep]
  | succ n ih =>
    intro di st input_var accMel accStop accAlign out h
    simp only [Decoder.autoLoop] at h
    split at h
    · cases h
    · rename_i r hstep
      split at h
      · cases h
      · rename_i v hit
        by_cases hv : d.stop_threshold < v
        · rw [if_pos hv] at h
          cases h
          simp only [Decoder.firstStopStep, hstep, hit, if_pos hv]
          refine ⟨?_, ?_, ?_⟩ <;> simp [List.length_append]
        · rw [if_neg hv] at h
          have hrec := ih (di + 1) r.state (.t2 r.mel_output) (accMel ++ [r.mel_output])
            (accStop ++ [r.stop_output]) (accAlign ++ [r.state.alignment]) out h
          simp only [Decoder.firstStopStep, hstep, hit, if_neg hv]
          obtain ⟨h1, h2, h3⟩ := hrec
          cases hfs : d.firstStopStep encoder_outputs pmask masks (di + 1) n r.state
              (.t2 r.mel_output) with
          | none =>
            rw [hfs] at h1 h2 h3
            simp only [Option.map_none']
            simp only [List.length_append, List.length_cons, List.length_nil] at h1 h2 h3
            exact ⟨by rw [h1]; ring, by rw [h2]; ring, by rw [h3]; ring⟩
          | some i =>
            rw [hfs] at h1 h2 h3
            simp only [Option.map_some']
            simp only [List.length_append, List.length_cons, List.length_nil] at h1 h2 h3
            exact ⟨by rw [h1]; ring, by rw [h2]; ring, by rw [h3]; ring⟩

/-! ## Softmax and shape lemmas (shared by C5, C6, C7) -/

/-- The head of a nonempty list is a member. -/
theorem headD_mem {l : List α} (d : α) (h : l ≠ []) : l.headD d ∈ l := by
  cases l with
  | nil => exact absurd rfl h
  | cons a t => simp

/-- `softmax` preserves length. -/
theorem softmax_length (x : Vec) : (softmax x).length = x.length := by
  simp [softmax]

/-- Every entry of a softmax output is non-negative. -/
theorem softmax_nonneg (x : Vec) : ∀ y ∈ softmax x, 0 ≤ y := by
  intro y hy
  simp only [softmax, List.mem_map] at hy
  obtain ⟨xi, hmem, rfl⟩ := hy
  have hs : 0 ≤ (x.map Real.exp).sum := by
    apply List.sum_nonneg
    intro a ha
    simp only [List.mem_map] at ha
    obtain ⟨b, hb, rfl⟩ := ha
    exact (Real.exp_pos b).le
  exact div_nonneg (Real.exp_pos xi).le hs

/-- The sum of exponentials of a nonempty list is positive. -/
theorem exp_sum_pos (x : Vec) (hx : x ≠ []) : 0 < (x.map Real.exp).sum := by
  cases x with
  | nil => exact absurd rfl hx
  | cons a t =>
    simp only [List.map_cons, List.sum_cons]
    have h1 : 0 ≤ (t.map Real.exp).sum := by
      apply List.sum_nonneg
      intro y hy
      simp only [List.mem_map] at hy
      obtain ⟨b, hb, rfl⟩ := hy
      exact (Real.exp_pos b).le
    linarith [Real.exp_pos a]

/-- A softmax output over a nonempty list sums to `1`. -/
theorem softmax_sum (x : Vec) (hx : x ≠ []) : (softmax x).sum = 1 := by
  have hs := exp_sum_pos x hx
  simp only [softmax]
  have hrw : (x.map fun xi => Real.exp xi / (x.map Real.exp).sum) =
      x.map fun xi => Real.exp xi * ((x.map Real.exp).sum)⁻¹ := by
    apply List.map_congr_left
    intro a ha
    rw [div_eq_mul_inv]
  rw [hrw, List.sum_map_mul_right, mul_inv_cancel₀ hs.ne']

/-- Members of a three-way zip come from members of the three lists. -/
theorem zip3W_mem {f : α → β → γ → δ} :
    ∀ {as : List α} {bs : List β} {cs : List γ} {x : δ},
      x ∈ zip3W f as bs cs → ∃ a ∈ as, ∃ b ∈ bs, ∃ c ∈ cs, x = f a b c := by
  intro as
  induction as with
  | nil => intro bs cs x hx; simp [zip3W] at hx
  | cons a as ih =>
    intro bs cs x hx
    cases bs with
    | nil => simp [zip3W] at hx
    | cons b bs =>
      cases cs with
      | nil => simp [zip3W] at hx
      | cons c cs =>
        simp only [zip3W, List.mem_cons] at hx
        rcases hx with rfl | hx
        · exact ⟨a, by simp, b, by simp, c, by simp, rfl⟩
        · obtain ⟨a2, ha, b2, hb, c2, hc, rfl⟩ := ih hx
          exact ⟨a2, by simp [ha], b2, by simp [hb], c2, by simp [hc], rfl⟩

/-- Broadcasting a single row against a matrix adds it to every row. -/
theorem bcastAdd_singleton_left (z : Vec) (y : Mat) :
    bcastAdd [z] y = y.map (fun r => vecAdd z r) := by
  simp [bcastAdd]

/-- Broadcast addition of equally long operands keeps the length. -/
theorem bcastAdd_length_eq (x y : Mat) (h : x.length = y.length) :
    (bcastAdd x y).length = x.length := by
  unfold bcastAdd
  by_cases h1 : x.length = 1
  · rw [if_pos h1, List.length_map, ← h]
  · rw [if_neg h1]
    by_cases h2 : y.length = 1
    · rw [if_pos h2, List.length_map]
    · rw [if_neg h2]
      simp [matAdd, h]

/-- The first output row of the location convolution has the convolution
output length. -/
theorem conv1dOne_headD_length (w : List Mat) (pad : Nat) (x : Mat) (hw : w ≠ []) :
    ((conv1dOne w pad x).headD []).length =
      (x.headD []).length + 2 * pad + 1 - ((w.headD []).headD []).length := by
  cases w with
  | nil => exact absurd rfl hw
  | cons wf ws => simp [conv1dOne]

/-- Transposition turns the row length of the first row into the number of
rows. -/
theorem transposeMat_length (m : Mat) : (transposeMat m).length = (m.headD []).length := by
  simp [transposeMat]

/-- Members of a `zipWith` come from members of the two lists. -/
theorem zipWith_mem {f : α → β → γ} :
    ∀ {as : List α} {bs : List β} {y : γ},
      y ∈ List.zipWith f as bs → ∃ a ∈ as, ∃ b ∈ bs, y = f a b := by
  intro as
  induction as with
  | nil => intro bs y hy; simp at hy
  | cons a as ih =>
    intro bs y hy
    cases bs with
    | nil => simp at hy
    | cons b bs =>
      simp only [List.zipWith_cons_cons, List.mem_cons] at hy
      rcases hy with rfl | hy
      · exact ⟨a, by simp, b, by simp, rfl⟩
      · obtain ⟨a2, ha, b2, hb, rfl⟩ := ih hy
        exact ⟨a2, by simp [ha], b2, by simp [hb], rfl⟩

/-- Length of a three-way zip. -/
theorem zip3W_length (f : α → β → γ → δ) :
    ∀ (as : List α) (bs : List β) (cs : List γ),
      (zip3W f as bs cs).length = min as.length (min bs.length cs.length) := by
  intro as
  induction as with
  | nil => intro bs cs; simp [zip3W]
  | cons a as ih =>
    intro bs cs
    cases bs with
    | nil => simp [zip3W]
    | cons b bs =>
      cases cs with
      | nil => simp [zip3W]
      | cons c cs =>
        simp only [zip3W, List.length_cons, ih]
        omega

/-- `mapWithIdx` preserves length. -/
theorem mapWithIdx_length (f : Nat → α → β) :
    ∀ (i : Nat) (l : List α), (mapWithIdx f i l).length = l.length := by
  intro i l
  induction l generalizing i with
  | nil => simp [mapWithIdx]
  | cons x xs ih => simp [mapWithIdx, ih]

/-- `zerosMat` has the announced shape. -/
theorem zerosMat_shape (r c : Nat) : MatShape (zerosMat r c) r c := by
  constructor
  · simp [zerosMat]
  · intro row hrow
    rw [List.eq_of_mem_replicate hrow]
    simp [zerosVec]

/-- `getD` on a replicated list. -/
theorem getD_replicate_ite (n i : Nat) (a d : α) :
    (List.replicate n a).getD i d = if i < n then a else d := by
  rcases lt_or_le i n with h | h
  · rw [List.getD_eq_getElem _ _ (by simpa using h), List.getElem_replicate, if_pos h]
  · rw [List.getD_eq_getElem?_getD, List.getElem?_eq_none (by simpa using h), if_neg (by omega)]
    rfl

/-- Every entry of `zerosMat` is `0`. -/
theorem mget_zerosMat (r c b i : Nat) : mget (zerosMat r c) b i = 0 := by
  unfold mget vget zerosMat zerosVec
  rw [getD_replicate_ite]
  by_cases hb : b < r
  · rw [if_pos hb, getD_replicate_ite]
    simp
  · rw [if_neg hb]
    simp

/-- Entry of an elementwise vector sum, in range. -/
theorem vget_vecAdd (x y : Vec) (i : Nat) (hx : i < x.length) (hy : i < y.length) :
    vget (vecAdd x y) i = vget x i + vget y i := by
  unfold vget vecAdd
  rw [List.getD_eq_getElem _ _ (by rw [List.length_zipWith]; omega),
    List.getD_eq_getElem _ _ hx, List.getD_eq_getElem _ _ hy]
  exact List.getElem_zipWith

/-- `matAdd` keeps a common shape. -/
theorem matAdd_shape (x y : Mat) (r c : Nat) (hx : MatShape x r c) (hy : MatShape y r c) :
    MatShape (matAdd x y) r c := by
  obtain ⟨hxl, hxr⟩ := hx
  obtain ⟨hyl, hyr⟩ := hy
  constructor
  · rw [matAdd, List.length_zipWith, hxl, hyl, Nat.min_self]
  · intro row hrow
    obtain ⟨a, ha, b, hb, rfl⟩ := zipWith_mem hrow
    rw [vecAdd, List.length_zipWith, hxr a ha, hyr b hb, Nat.min_self]

/-- Entry of an elementwise matrix sum, in range. -/
theorem matAdd_mget (x y : Mat) (r c b i : Nat) (hx : MatShape x r c) (hy : MatShape y r c)
    (hb : b < r) (hi : i < c) : mget (matAdd x y) b i = mget x b i + mget y b i := by
  obtain ⟨hxl, hxr⟩ := hx
  obtain ⟨hyl, hyr⟩ := hy
  have hbx : b < x.length := by omega
  have hby : b < y.length := by omega
  unfold mget matAdd
  rw [List.getD_eq_getElem (List.zipWith vecAdd x y) [] (by rw [List.length_zipWith]; omega)]
  rw [List.getD_eq_getElem x [] hbx, List.getD_eq_getElem y [] hby]
  rw [List.getElem_zipWith]
  apply vget_vecAdd
  · rw [hxr x[b] (List.getElem_mem hbx)]; omega
  · rw [hyr y[b] (List.getElem_mem hby)]; omega

/-- Every entry of a matrix whose rows have non-negative entries is
non-negative (out-of-range entries default to `0`). -/
theorem mget_nonneg (m : Mat) (h : ∀ row ∈ m, ∀ e ∈ row, 0 ≤ e) (b i : Nat) :
    0 ≤ mget m b i := by
  unfold mget vget
  by_cases hb : b < m.length
  · rw [List.getD_eq_getElem m [] hb]
    have hrow : m[b] ∈ m := List.getElem_mem hb
    by_cases hi : i < m[b].length
    · rw [List.getD_eq_getElem m[b] 0 hi]
      exact h _ hrow _ (List.getElem_mem hi)
    · rw [List.getD_eq_getElem?_getD,
        List.getElem?_eq_none (show m[b].length ≤ i by omega)]
      simp
  · have hdef : m.getD b [] = [] := by
      rw [List.getD_eq_getElem?_getD, List.getElem?_eq_none (show m.length ≤ b by omega)]
      rfl
    rw [hdef]
    simp

/-- Structure of the alignment returned by
`LocationSensitiveAttention.forward`: one row per zipped batch element,
each row a softmax over a pre-activation row of the value-sequence length
(shapes from the source: the query projection contributes a single
broadcast row, the value projection one row per value position, and the
location features one row per convolution output position). -/
theorem attention_alignment_softmax_rows
    (p : LocationSensitiveAttention) (query : Mat) (value : Tens3) (last_alignment : Tens3)
    (seqLen : Nat)
    (hval : ∀ m ∈ value, m.length = seqLen)
    (hla : ∀ ab ∈ last_alignment, (ab.headD []).length = seqLen)
    (hK : p.location_conv_kernel_size % 2 = 1)
    (hKw : ((p.location_conv.headD []).headD []).length = p.location_conv_kernel_size)
    (hF : p.location_conv ≠ []) :
    (p.forward query value last_alignment).2.length =
      min query.length (min value.length last_alignment.length) ∧
    ∀ row ∈ (p.forward query value last_alignment).2,
      ∃ er, row = softmax er ∧ er.length = seqLen := by
  constructor
  · simp only [LocationSensitiveAttention.forward]
    simp [zip3W_length]
  · intro row hrow
    simp only [LocationSensitiveAttention.forward, List.map_map, List.mem_map,
      Function.comp] at hrow
    obtain ⟨m, hm, rfl⟩ := hrow
    obtain ⟨q0, hq0, v0, hv0, l0, hl0, rfl⟩ := zip3W_mem hm
    simp only [List.mem_map, List.map_map, Function.comp] at hq0 hv0 hl0
    obtain ⟨qr, hqr, rfl⟩ := hq0
    obtain ⟨vm, hvm, rfl⟩ := hv0
    obtain ⟨ab, hab, rfl⟩ := hl0
    refine ⟨_, rfl, ?_⟩
    have hl0len : ((transposeMat (conv1dOne p.location_conv
        ((p.location_conv_kernel_size - 1) / 2) ab)).map p.location_proj.apply).length =
        seqLen := by
      rw [List.length_map, transposeMat_length, conv1dOne_headD_length _ _ _ hF,
        hla ab hab, hKw]
      omega
    have h1len : (bcastAdd [p.query_proj.apply qr] (vm.map p.value_proj.apply)).length =
        seqLen := by
      rw [bcastAdd_singleton_left, List.length_map, List.length_map]
      exact hval vm hvm
    have h2len : (bcastAdd (bcastAdd [p.query_proj.apply qr] (vm.map p.value_proj.apply))
        ((transposeMat (conv1dOne p.location_conv ((p.location_conv_kernel_size - 1) / 2) ab)).map
          p.location_proj.apply)).length = seqLen := by
      rw [bcastAdd_length_eq _ _ (by rw [h1len, hl0len])]
      exact h1len
    simp only [List.length_map]
    exact h2len

/-- Entries of the attention alignment are always non-negative: every row
is a softmax output. -/
theorem attention_alignment_entries_nonneg
    (p : LocationSensitiveAttention) (query : Mat) (value : Tens3) (last_alignment : Tens3) :
    ∀ row ∈ (p.forward query value last_alignment).2, ∀ e ∈ row, 0 ≤ e := by
  intro row hrow
  simp only [LocationSensitiveAttention.forward, List.map_map, List.mem_map,
    Function.comp] at hrow
  obtain ⟨m, hm, rfl⟩ := hrow
  exact softmax_nonneg _

/-- The context returned by the attention has one row per zipped batch
element of alignment and value. -/
theorem attention_context_length
    (p : LocationSensitiveAttention) (query : Mat) (value : Tens3) (last_alignment : Tens3) :
    (p.forward query value last_alignment).1.length =
      min (p.forward query value last_alignment).2.length value.length := by
  simp only [LocationSensitiveAttention.forward]
  simp [List.length_zipWith]

/-- Row counts of the batched LSTM cell outputs. -/
theorem lstmCell_lengths (p : LSTMCellParams) (x h c : Mat) :
    (lstmCell p x h c).1.length = min x.length (min h.length c.length) ∧
    (lstmCell p x h c).2.length = min x.length (min h.length c.length) := by
  unfold lstmCell
  constructor <;> simp [List.length_zipWith, List.length_zip]

/-- Dropout preserves the row count. -/
theorem F_dropout_length (p : ℝ) (mask : DropMask) (x : Mat) :
    (F_dropout p mask x).length = x.length := by
  unfold F_dropout
  exact mapWithIdx_length _ _ _

/-- Row-count and alignment-shape facts about a decoder state that are
preserved by `forward_step`: batch-sized LSTM outputs/hiddens and context,
and `(batch, seqLen)`-shaped alignment and cumulative alignment. -/
def DecStateRows (batch seqLen : Nat) (st : DecoderState) : Prop :=
  (st.lstm_outputs.getD 0 []).length = batch ∧
  (st.lstm_outputs.getD 1 []).length = batch ∧
  (st.lstm_hiddens.getD 0 []).length = batch ∧
  (st.lstm_hiddens.getD 1 []).length = batch ∧
  MatShape st.alignment batch seqLen ∧
  MatShape st.alignment_cum batch seqLen ∧
  st.context.length = batch

/-- The state built by `_init_decoder_states` satisfies `DecStateRows` for
the encoder batch size and sequence length. -/
theorem init_decoder_states_rows (d : Decoder) (encoder_outputs : Tens3) :
    DecStateRows encoder_outputs.length ((encoder_outputs.headD []).length)
      (d.init_decoder_states encoder_outputs) := by
  unfold Decoder.init_decoder_states DecStateRows
  refine ⟨?_, ?_, ?_, ?_, zerosMat_shape _ _, zerosMat_shape _ _, ?_⟩ <;>
    simp [zerosMat, zerosVec]

/-- One `forward_step` preserves `DecStateRows`, adds the fresh alignment
into the cumulative alignment, and produces a non-negative alignment. -/
theorem forward_step_shape (d : Decoder) (encoder_outputs : Tens3) (st : DecoderState)
    (mask1 mask2 : DropMask) (input_var : PyTensor) (mIv : Mat)
    (batch seqLen : Nat)
    (henc : encoder_outputs.length = batch)
    (hencrows : ∀ m ∈ encoder_outputs, m.length = seqLen)
    (hK : d.attention.location_conv_kernel_size % 2 = 1)
    (hKw : ((d.attention.location_conv.headD []).headD []).length =
      d.attention.location_conv_kernel_size)
    (hF : d.attention.location_conv ≠ [])
    (hst : DecStateRows batch seqLen st)
    (hiv : squeeze1 input_var = .t2 mIv) (hivlen : mIv.length = batch)
    (r : StepResult) (hr : d.forward_step input_var encoder_outputs st mask1 mask2 = .ok r) :
    DecStateRows batch seqLen r.state ∧
    r.state.alignment_cum = matAdd st.alignment_cum r.state.alignment ∧
    (∀ b i, 0 ≤ mget r.state.alignment b i) := by
  obtain ⟨hl0, hl1, hh0, hh1, hal, hcum, hctx⟩ := hst
  unfold Decoder.forward_step at hr
  rw [hiv] at hr
  split at hr
  · rename_i e heq
    simp only [catLastDim] at heq
    exact Except.noConfusion heq
  · rename_i m2 heq
    simp only [catLastDim, Except.ok.injEq] at heq
    cases hr
    subst heq
    -- abbreviations for the intermediate tensors
    have hm2len : (List.zipWith (· ++ ·) mIv st.context).length = batch := by
      rw [List.length_zipWith, hivlen, hctx, Nat.min_self]
    have hconc : ∀ ab ∈ List.zipWith (fun (a ca : Vec) => [a, ca]) st.alignment
        st.alignment_cum, (ab.headD []).length = seqLen := by
      intro ab hab
      obtain ⟨a, ha, ca, hca, rfl⟩ := zipWith_mem hab
      simpa using hal.2 a ha
    have hconclen : (List.zipWith (fun (a ca : Vec) => [a, ca]) st.alignment
        st.alignment_cum).length = batch := by
      rw [List.length_zipWith, hal.1, hcum.1, Nat.min_self]
    have hh0len : (F_dropout d.attn_dropout_p mask1
        (lstmCell d.lstm0 (List.zipWith (· ++ ·) mIv st.context)
          (st.lstm_outputs.getD 0 []) (st.lstm_hiddens.getD 0 [])).1).length = batch := by
      rw [F_dropout_length, (lstmCell_lengths _ _ _ _).1, hm2len, hl0, hh0]
      omega
    obtain ⟨halen, harows⟩ := attention_alignment_softmax_rows d.attention
      (F_dropout d.attn_dropout_p mask1
        (lstmCell d.lstm0 (List.zipWith (· ++ ·) mIv st.context)
          (st.lstm_outputs.getD 0 []) (st.lstm_hiddens.getD 0 [])).1)
      encoder_outputs
      (List.zipWith (fun (a ca : Vec) => [a, ca]) st.alignment st.alignment_cum)
      seqLen hencrows hconc hK hKw hF
    have halshape : MatShape (d.attention.forward
        (F_dropout d.attn_dropout_p mask1
          (lstmCell d.lstm0 (List.zipWith (· ++ ·) mIv st.context)
            (st.lstm_outputs.getD 0 []) (st.lstm_hiddens.getD 0 [])).1)
        encoder_outputs
        (List.zipWith (fun (a ca : Vec) => [a, ca]) st.alignment st.alignment_cum)).2
        batch seqLen := by
      constructor
      · rw [halen, hh0len, henc, hconclen]
        omega
      · intro row hrow
        obtain ⟨er, rfl, herlen⟩ := harows row hrow
        rw [softmax_length, herlen]
    have hctxlen : (d.attention.forward
        (F_dropout d.attn_dropout_p mask1
          (lstmCell d.lstm0 (List.zipWith (· ++ ·) mIv st.context)
            (st.lstm_outputs.getD 0 []) (st.lstm_hiddens.getD 0 [])).1)
        encoder_outputs
        (List.zipWith (fun (a ca : Vec) => [a, ca]) st.alignment st.alignment_cum)).1.length =
        batch := by
      rw [attention_context_length, halshape.1, henc]
      omega
    refine ⟨⟨?_, ?_, ?_, ?_, halshape, matAdd_shape _ _ _ _ hcum halshape, ?_⟩, rfl, ?_⟩
    · simpa using hh0len
    · simp only [List.getD_cons_succ, List.getD_cons_zero]
      rw [F_dropout_length, (lstmCell_lengths _ _ _ _).1, List.length_zipWith, hh0len,
        hctxlen, hl1, hh1]
      omega
    · simpa using (lstmCell_lengths d.lstm0 (List.zipWith (· ++ ·) mIv st.context)
        (st.lstm_outputs.getD 0 []) (st.lstm_hiddens.getD 0 [])).2.trans
        (by rw [hm2len, hl0, hh0]; omega)
    · simp only [List.getD_cons_succ, List.getD_cons_zero]
      rw [(lstmCell_lengths _ _ _ _).2, List.length_zipWith, hh0len, hctxlen, hl1, hh1]
      omega
    · simpa using hctxlen
    · intro b i
      exact mget_nonneg _ (attention_alignment_entries_nonneg _ _ _ _) b i

/-- Iterating `forward_step` from the freshly initialized decoder state
(as both loops of `Decoder.forward` do), with the per-step pre-transformed
input frames supplied by `ivs`; collects the per-step alignments. -/
def Decoder.stepTraj (d : Decoder) (encoder_outputs : Tens3) (ivs : Nat → PyTensor)
    (masks : Nat → DropMask × DropMask) : Nat → Except String (DecoderState × List Mat)
  | 0 => .ok (d.init_decoder_states encoder_outputs, [])
  | n + 1 =>
    match d.stepTraj encoder_outputs ivs masks n with
    | .error e => .error e
    | .ok sa =>
      match d.forward_step (ivs n) encoder_outputs sa.1 (masks n).1 (masks n).2 with
      | .error e => .error e
      | .ok r => .ok (r.state, sa.2 ++ [r.state.alignment])

/-- Invariant of the step trajectory: the state keeps its shape, all
collected alignments are entrywise non-negative, and the cumulative
alignment is entrywise the sum of the collected alignments. -/
theorem stepTraj_invariant (d : Decoder) (encoder_outputs : Tens3) (ivs : Nat → PyTensor)
    (masks : Nat → DropMask × DropMask) (batch seqLen : Nat)
    (henc : encoder_outputs.length = batch)
    (hencrows : ∀ m ∈ encoder_outputs, m.length = seqLen)
    (hhead : (encoder_outputs.headD []).length = seqLen)
    (hK : d.attention.location_conv_kernel_size % 2 = 1)
    (hKw : ((d.attention.location_conv.headD []).headD []).length =
      d.attention.location_conv_kernel_size)
    (hF : d.attention.location_conv ≠ [])
    (hivs : ∀ k, ∃ m, squeeze1 (ivs k) = .t2 m ∧ m.length = batch) :
    ∀ (N : Nat) (st : DecoderState) (aligns : List Mat),
      d.stepTraj encoder_outputs ivs masks N = .ok (st, aligns) →
      DecStateRows batch seqLen st ∧
      (∀ a ∈ aligns, ∀ b i, 0 ≤ mget a b i) ∧
      (∀ b i, b < batch → i < seqLen →
        mget st.alignment_cum b i = (aligns.map (fun a => mget a b i)).sum) := by
  intro N
  induction N with
  | zero =>
    intro st aligns h
    simp only [Decoder.stepTraj] at h
    cases h
    refine ⟨?_, by simp, ?_⟩
    · have hinit := init_decoder_states_rows d encoder_outputs
      rw [henc, hhead] at hinit
      exact hinit
    · intro b i hb hi
      simp only [Decoder.init_decoder_states, List.map_nil, List.sum_nil]
      exact mget_zerosMat _ _ _ _
  | succ n ih =>
    intro st aligns h
    simp only [Decoder.stepTraj] at h
    split at h
    · cases h
    · rename_i sa hsa
      obtain ⟨st0, al0⟩ := sa
      split at h
      · cases h
      · rename_i r hstep
        cases h
        obtain ⟨hrows, hnn, hsum⟩ := ih st0 al0 hsa
        obtain ⟨mIv, hivk, hivlen⟩ := hivs n
        obtain ⟨hrows2, hcumEq, hnn2⟩ := forward_step_shape d encoder_outputs st0
          (masks n).1 (masks n).2 (ivs n) mIv batch seqLen henc hencrows hK hKw hF hrows
          hivk hivlen r hstep
        refine ⟨hrows2, ?_, ?_⟩
        · intro a ha
          rcases List.mem_append.mp ha with ha | ha
          · exact hnn a ha
          · rw [List.mem_singleton.mp ha]
            exact hnn2
        · intro b i hb hi
          obtain ⟨w1, w2, w3, w4, w5, w6, w7⟩ := hrows
          obtain ⟨u1, u2, u3, u4, u5, u6, u7⟩ := hrows2
          rw [hcumEq, matAdd_mget st0.alignment_cum r.state.alignment batch seqLen b i
            w6 u5 hb hi]
          rw [hsum b i hb hi]
          simp [List.map_append, List.sum_append]

/-- The alignments collected by a longer trajectory extend those of a
shorter one. -/
theorem stepTraj_prefix (d : Decoder) (encoder_outputs : Tens3) (ivs : Nat → PyTensor)
    (masks : Nat → DropMask × DropMask) :
    ∀ (N M : Nat), M ≤ N →
      ∀ (st stM : DecoderState) (aligns alignsM : List Mat),
        d.stepTraj encoder_outputs ivs masks N = .ok (st, aligns) →
        d.stepTraj encoder_outputs ivs masks M = .ok (stM, alignsM) →
        ∃ rest, aligns = alignsM ++ rest := by
  intro N
  induction N with
  | zero =>
    intro M hM st stM aligns alignsM hN hMt
    have hM0 : M = 0 := Nat.le_zero.mp hM
    subst hM0
    rw [hN] at hMt
    injection hMt with hMt
    injection hMt with h1 h2
    exact ⟨[], by rw [h2, List.append_nil]⟩
  | succ n ih =>
    intro M hM st stM aligns alignsM hN hMt
    rcases Nat.lt_or_ge M (n + 1) with hlt | hge
    · have hMn : M ≤ n := by omega
      simp only [Decoder.stepTraj] at hN
      split at hN
      · cases hN
      · rename_i sa hsa
        obtain ⟨st0, al0⟩ := sa
        split at hN
        · cases hN
        · rename_i r hstep
          cases hN
          obtain ⟨rest, hrest⟩ := ih M hMn st0 stM al0 alignsM hsa hMt
          exact ⟨rest ++ [r.state.alignment], by rw [hrest, List.append_assoc]⟩
    · have hMeq : M = n + 1 := by omega
      subst hMeq
      rw [hN] at hMt
      injection hMt with hMt
      injection hMt with h1 h2
      exact ⟨[], by rw [h2, List.append_nil]⟩

/-- `headD` is `getD 0`. -/
theorem headD_eq_getD (l : List α) (d : α) : l.headD d = l.getD 0 d := by
  cases l <;> rfl

/-- `getD` through a `map`, in range. -/
theorem getD_map_in_range (f : α → β) (l : List α) (t : Nat) (d : β) (d2 : α)
    (ht : t < l.length) : (l.map f).getD t d = f (l.getD t d2) := by
  rw [List.getD_eq_getElem _ _ (by simpa using ht), List.getD_eq_getElem _ _ ht]
  simp

/-- Indexing a three-way zip. -/
theorem zip3W_getElem {f : α → β → γ → δ} :
    ∀ (as : List α) (bs : List β) (cs : List γ) (n : Nat)
      (h : n < (zip3W f as bs cs).length)
      (ha : n < as.length) (hb : n < bs.length) (hc : n < cs.length),
      (zip3W f as bs cs)[n] = f as[n] bs[n] cs[n] := by
  intro as
  induction as with
  | nil => intro bs cs n h ha hb hc; simp at ha
  | cons a as ih =>
    intro bs cs n h ha hb hc
    cases bs with
    | nil => simp at hb
    | cons b bs =>
      cases cs with
      | nil => simp at hc
      | cons c cs =>
        cases n with
        | zero => rfl
        | succ m =>
          have h2 : m < (zip3W f as bs cs).length := by
            have h3 : (m + 1) < (f a b c :: zip3W f as bs cs).length := h
            simpa using h3
          show (f a b c :: zip3W f as bs cs)[m + 1] =
            f (a :: as)[m + 1] (b :: bs)[m + 1] (c :: cs)[m + 1]
          simp only [List.getElem_cons_succ]
          exact ih bs cs m h2 (by simpa using ha) (by simpa using hb) (by simpa using hc)

/-- Row `t` of a broadcast addition of two equally long matrices. -/
theorem bcastAdd_getD_eq (x y : Mat) (n t : Nat) (hx : x.length = n) (hy : y.length = n)
    (ht : t < n) : (bcastAdd x y).getD t [] = vecAdd (x.getD t []) (y.getD t []) := by
  unfold bcastAdd
  by_cases h1 : x.length = 1
  · rw [if_pos h1]
    have ht0 : t = 0 := by omega
    subst ht0
    cases y with
    | nil => simp at hy; omega
    | cons y0 ys =>
      cases x with
      | nil => simp at h1
      | cons x0 xs => rfl
  · rw [if_neg h1]
    by_cases h2 : y.length = 1
    · exact absurd rfl (by omega : ¬(1 = 1))
    · rw [if_neg h2]
      unfold matAdd
      rw [List.getD_eq_getElem _ _ (by rw [List.length_zipWith]; omega),
        List.getD_eq_getElem x [] (by omega), List.getD_eq_getElem y [] (by omega)]
      exact List.getElem_zipWith

/-- Row `t` of a transpose is column `t` of the original. -/
theorem transposeMat_getD (m : Mat) (t : Nat) (ht : t < (m.headD []).length) :
    (transposeMat m).getD t [] = m.map (fun r => r.getD t 0) := by
  unfold transposeMat
  rw [List.getD_eq_getElem _ _ (by simpa using ht)]
  simp

/-- A zipped product-sum as a finite sum over positions. -/
theorem zipWith_vget_sum (j : Nat) :
    ∀ (xs : Vec) (ys : Mat),
      (List.zipWith (fun a r => a * vget r j) xs ys).sum =
        ∑ t ∈ Finset.range (min xs.length ys.length),
          vget xs t * vget (ys.getD t []) j := by
  intro xs
  induction xs with
  | nil => intro ys; simp
  | cons x xs ih =>
    intro ys
    cases ys with
    | nil => simp
    | cons y ys =>
      simp only [List.zipWith_cons_cons, List.sum_cons, List.length_cons]
      rw [ih ys]
      have hmin : min (xs.length + 1) (ys.length + 1) = min xs.length ys.length + 1 := by
        omega
      rw [hmin, Finset.sum_range_succ']
      simp only [vget, List.getD_cons_succ, List.getD_cons_zero]
      ring

/-- Entry `j` of a map over `List.range`, in range. -/
theorem vget_range_map (f : Nat → ℝ) (n j : Nat) (hj : j < n) :
    vget ((List.range n).map f) j = f j := by
  unfold vget
  rw [List.getD_eq_getElem _ 0 (by simpa using hj)]
  simp

/-- Indexing a three-way zip through `getD`, in range. -/
theorem zip3W_getD {f : α → β → γ → δ} (as : List α) (bs : List β) (cs : List γ) (n : Nat)
    (da : α) (db : β) (dc : γ) (dd : δ)
    (ha : n < as.length) (hb : n < bs.length) (hc : n < cs.length) :
    (zip3W f as bs cs).getD n dd = f (as.getD n da) (bs.getD n db) (cs.getD n dc) := by
  rw [List.getD_eq_getElem _ _ (by rw [zip3W_length]; omega),
    List.getD_eq_getElem as da ha, List.getD_eq_getElem bs db hb,
    List.getD_eq_getElem cs dc hc]
  exact zip3W_getElem as bs cs n (by rw [zip3W_length]; omega) ha hb hc

/-! ## Claim C5: the cumulative alignment is the running sum -/

/-- Claim C5: along any sequence of `forward_step` invocations started
from the freshly initialized decoder state, the cumulative alignment after
`N` steps equals, entry by entry, the sum of the `N` per-step alignments
produced so far (it starts at zero and each step adds the new alignment);
consequently each in-range entry of the cumulative alignment is
monotonically non-decreasing over steps. -/
theorem alignment_cum_is_running_sum (d : Decoder) (encoder_outputs : Tens3)
    (ivs : Nat → PyTensor) (masks : Nat → DropMask × DropMask) (batch seqLen N : Nat)
    (henc : encoder_outputs.length = batch)
    (hencrows : ∀ m ∈ encoder_outputs, m.length = seqLen)
    (hhead : (encoder_outputs.headD []).length = seqLen)
    (hK : d.attention.location_conv_kernel_size % 2 = 1)
    (hKw : ((d.attention.location_conv.headD []).headD []).length =
      d.attention.location_conv_kernel_size)
    (hF : d.attention.location_conv ≠ [])
    (hivs : ∀ k, ∃ m, squeeze1 (ivs k) = .t2 m ∧ m.length = batch)
    (st : DecoderState) (aligns : List Mat)
    (htraj : d.stepTraj encoder_outputs ivs masks N = .ok (st, aligns)) :
    (∀ b i, b < batch → i < seqLen →
      mget st.alignment_cum b i = (aligns.map (fun a => mget a b i)).sum) ∧
    (∀ (M : Nat) (stM : DecoderState) (alignsM : List Mat), M ≤ N →
      d.stepTraj encoder_outputs ivs masks M = .ok (stM, alignsM) →
      ∀ b i, b < batch → i < seqLen →
        mget stM.alignment_cum b i ≤ mget st.alignment_cum b i) := by
  obtain ⟨hrowsN, hnnN, hsumN⟩ := stepTraj_invariant d encoder_outputs ivs masks batch seqLen
    henc hencrows hhead hK hKw hF hivs N st aligns htraj
  refine ⟨hsumN, ?_⟩
  intro M stM alignsM hM hMt b i hb hi
  obtain ⟨hrowsM, hnnM, hsumM⟩ := stepTraj_invariant d encoder_outputs ivs masks batch seqLen
    henc hencrows hhead hK hKw hF hivs M stM alignsM hMt
  obtain ⟨rest, hrest⟩ := stepTraj_prefix d encoder_outputs ivs masks N M hM st stM
    aligns alignsM htraj hMt
  rw [hsumN b i hb hi, hsumM b i hb hi, hrest, List.map_append, List.sum_append]
  have hrestnn : 0 ≤ (rest.map (fun a => mget a b i)).sum := by
    apply List.sum_nonneg
    intro x hx
    simp only [List.mem_map] at hx
    obtain ⟨a, ha, rfl⟩ := hx
    exact hnnN a (by rw [hrest]; exact List.mem_append_right _ ha) b i
  linarith

/-- Witness for C5 at `N = 0` on the unit decoder: the trajectory starts
with a zero cumulative alignment and an empty alignment list. -/
theorem alignment_cum_is_running_sum_witness :
    (∀ b i, b < 1 → i < 1 →
      mget (dUnit.init_decoder_states encUnit).alignment_cum b i =
        (([] : List Mat).map (fun a => mget a b i)).sum) ∧
    (∀ (M : Nat) (stM : DecoderState) (alignsM : List Mat), M ≤ 0 →
      dUnit.stepTraj encUnit (fun _ => .t2 [[0, 0]]) keepAll M = .ok (stM, alignsM) →
      ∀ b i, b < 1 → i < 1 →
        mget stM.alignment_cum b i ≤
          mget (dUnit.init_decoder_states encUnit).alignment_cum b i) :=
  alignment_cum_is_running_sum dUnit encUnit (fun _ => .t2 [[0, 0]]) keepAll 1 1 0
    rfl (by simp [encUnit]) rfl (by decide) (by decide) (List.cons_ne_nil _ _)
    (fun k => ⟨[[0, 0]], rfl, rfl⟩) (dUnit.init_decoder_states encUnit) [] rfl

/-! ## Claim C6: alignment rows are probability distributions -/

/-- Claim C6: for every valid input to `LocationSensitiveAttention.forward`
(a positive value-sequence length, value rows and alignment-history
channels of that length, and an odd location kernel), every row of the
returned alignment energy has non-negative entries and sums to 1 across
the input-length axis, because the energies are softmax-normalized over
that axis. -/
theorem attention_alignment_rows_are_distributions
    (p : LocationSensitiveAttention) (query : Mat) (value : Tens3) (last_alignment : Tens3)
    (seqLen : Nat) (hseq : 0 < seqLen)
    (hval : ∀ m ∈ value, m.length = seqLen)
    (hla : ∀ ab ∈ last_alignment, (ab.headD []).length = seqLen)
    (hK : p.location_conv_kernel_size % 2 = 1)
    (hKw : ((p.location_conv.headD []).headD []).length = p.location_conv_kernel_size)
    (hF : p.location_conv ≠ [])
    (row : Vec) (hrow : row ∈ (p.forward query value last_alignment).2) :
    (∀ e ∈ row, 0 ≤ e) ∧ row.sum = 1 := by
  obtain ⟨hlen, hrows⟩ := attention_alignment_softmax_rows p query value last_alignment seqLen
    hval hla hK hKw hF
  obtain ⟨er, rfl, herlen⟩ := hrows row hrow
  refine ⟨softmax_nonneg er, softmax_sum er ?_⟩
  apply List.ne_nil_of_length_pos
  rw [herlen]
  exact hseq

/-! ## Claim C7: the attention computes the described composition -/

/-- Written from the spec (section 4.1, step 2): the location feature at
input position `t` — the 2-channel alignment history passed through the
location convolution, read across filters at position `t`, then projected
into the attention space. -/
def locationFeatureSpec (p : LocationSensitiveAttention) (lapair : Mat) (t : Nat) : Vec :=
  p.location_proj.apply
    ((conv1dOne p.location_conv ((p.location_conv_kernel_size - 1) / 2) lapair).map
      (fun fr => fr.getD t 0))

/-- Written from the spec (section 4.1, step 3): the scalar attention
energy at input position `t` — the final linear projection of the tanh of
the sum of the projected query, the projected value at `t`, the location
feature at `t`, and the learned bias. -/
def attnEnergySpec (p : LocationSensitiveAttention) (q : Vec) (vrows : Mat) (lapair : Mat)
    (t : Nat) : ℝ :=
  vget (p.align_proj.apply
    ((vecAdd (vecAdd (vecAdd (p.query_proj.apply q) (p.value_proj.apply (vrows.getD t [])))
      (locationFeatureSpec p lapair t)) p.bias).map Real.tanh)) 0

/-- Claim C7: `LocationSensitiveAttention.forward` computes the
composition the spec describes.  Per batch element, the returned alignment
is the softmax over input positions of the energies built from the two
bias-free query/value projections, the convolved-and-projected 2-channel
alignment history, the learned bias, tanh, and the final scalar
projection; and each entry of the returned context vector is the
alignment-weighted sum of the encoder value entries (the batched matrix
product). -/
theorem attention_forward_characterization
    (p : LocationSensitiveAttention) (query : Mat) (value : Tens3) (last_alignment : Tens3)
    (seqLen emb : Nat) (hseq : 0 < seqLen)
    (hval : ∀ m ∈ value, m.length = seqLen)
    (hvw : ∀ m ∈ value, ∀ r ∈ m, r.length = emb)
    (hla : ∀ ab ∈ last_alignment, (ab.headD []).length = seqLen)
    (hK : p.location_conv_kernel_size % 2 = 1)
    (hKw : ((p.location_conv.headD []).headD []).length = p.location_conv_kernel_size)
    (hF : p.location_conv ≠ [])
    (b : Nat) (hbq : b < query.length) (hbv : b < value.length)
    (hbl : b < last_alignment.length) :
    (p.forward query value last_alignment).2.getD b [] =
      softmax ((List.range seqLen).map
        (attnEnergySpec p (query.getD b []) (value.getD b []) (last_alignment.getD b []))) ∧
    ∀ j, j < emb →
      vget ((p.forward query value last_alignment).1.getD b []) j =
        ∑ t ∈ Finset.range seqLen,
          vget ((p.forward query value last_alignment).2.getD b []) t *
            mget (value.getD b []) t j := by
  have h2eq : (p.forward query value last_alignment).2 =
      ((zip3W (fun q v l => (bcastAdd (bcastAdd q v) l).map (fun r => vecAdd r p.bias))
        (query.map (fun r => [p.query_proj.apply r]))
        (value.map (fun m => m.map p.value_proj.apply))
        (((last_alignment.map (conv1dOne p.location_conv
          ((p.location_conv_kernel_size - 1) / 2))).map transposeMat).map
            (fun m => m.map p.location_proj.apply))).map
        (fun m => m.map (fun r => vget (p.align_proj.apply (r.map Real.tanh)) 0))).map
        softmax := rfl
  have hvb : (value.getD b []).length = seqLen := by
    rw [List.getD_eq_getElem value [] hbv]
    exact hval _ (List.getElem_mem hbv)
  have hlab : ((last_alignment.getD b []).headD []).length = seqLen := by
    rw [List.getD_eq_getElem last_alignment [] hbl]
    exact hla _ (List.getElem_mem hbl)
  have hconvlen : (((transposeMat (conv1dOne p.location_conv
      ((p.location_conv_kernel_size - 1) / 2) (last_alignment.getD b []))).map
        p.location_proj.apply)).length = seqLen := by
    rw [List.length_map, transposeMat_length, conv1dOne_headD_length _ _ _ hF, hlab, hKw]
    omega
  have hb2len : b < (zip3W
      (fun q v l => (bcastAdd (bcastAdd q v) l).map (fun r => vecAdd r p.bias))
      (query.map (fun r => [p.query_proj.apply r]))
      (value.map (fun m => m.map p.value_proj.apply))
      (((last_alignment.map (conv1dOne p.location_conv
        ((p.location_conv_kernel_size - 1) / 2))).map transposeMat).map
          (fun m => m.map p.location_proj.apply))).length := by
    rw [zip3W_length]
    simp only [List.length_map]
    omega
  have hrowb : (p.forward query value last_alignment).2.getD b [] =
      softmax (((zip3W (fun q v l => (bcastAdd (bcastAdd q v) l).map (fun r => vecAdd r p.bias))
        (query.map (fun r => [p.query_proj.apply r]))
        (value.map (fun m => m.map p.value_proj.apply))
        (((last_alignment.map (conv1dOne p.location_conv
          ((p.location_conv_kernel_size - 1) / 2))).map transposeMat).map
            (fun m => m.map p.location_proj.apply))).getD b []).map
        (fun r => vget (p.align_proj.apply (r.map Real.tanh)) 0)) := by
    rw [h2eq]
    rw [getD_map_in_range _ _ _ [] [] (by simpa using hb2len)]
    rw [getD_map_in_range _ _ _ [] [] hb2len]
  have hcomp : (zip3W (fun q v l => (bcastAdd (bcastAdd q v) l).map (fun r => vecAdd r p.bias))
      (query.map (fun r => [p.query_proj.apply r]))
      (value.map (fun m => m.map p.value_proj.apply))
      (((last_alignment.map (conv1dOne p.location_conv
        ((p.location_conv_kernel_size - 1) / 2))).map transposeMat).map
          (fun m => m.map p.location_proj.apply))).getD b [] =
      (bcastAdd (bcastAdd [p.query_proj.apply (query.getD b [])]
        ((value.getD b []).map p.value_proj.apply))
        ((transposeMat (conv1dOne p.location_conv ((p.location_conv_kernel_size - 1) / 2)
          (last_alignment.getD b []))).map p.location_proj.apply)).map
        (fun r => vecAdd r p.bias) := by
    rw [zip3W_getD _ _ _ _ [] [] [] [] (by simpa using hbq) (by simpa using hbv)
      (by simpa using hbl)]
    rw [getD_map_in_range _ _ _ [] [] hbq]
    rw [getD_map_in_range _ _ _ [] [] hbv]
    rw [getD_map_in_range _ _ _ [] [] (show b < ((last_alignment.map (conv1dOne p.location_conv
      ((p.location_conv_kernel_size - 1) / 2))).map transposeMat).length by simpa using hbl)]
    rw [getD_map_in_range _ _ _ [] [] (show b < (last_alignment.map (conv1dOne p.location_conv
      ((p.location_conv_kernel_size - 1) / 2))).length by simpa using hbl)]
    rw [getD_map_in_range _ _ _ [] [] hbl]
  have hp1 : (p.forward query value last_alignment).2.getD b [] =
      softmax ((List.range seqLen).map
        (attnEnergySpec p (query.getD b []) (value.getD b []) (last_alignment.getD b []))) := by
    rw [hrowb, hcomp]
    congr 1
    have hbc1len : (bcastAdd [p.query_proj.apply (query.getD b [])]
        ((value.getD b []).map p.value_proj.apply)).length = seqLen := by
      rw [bcastAdd_singleton_left, List.length_map, List.length_map]
      exact hvb
    have hbc2len : (bcastAdd (bcastAdd [p.query_proj.apply (query.getD b [])]
        ((value.getD b []).map p.value_proj.apply))
        ((transposeMat (conv1dOne p.location_conv ((p.location_conv_kernel_size - 1) / 2)
          (last_alignment.getD b []))).map p.location_proj.apply)).length = seqLen := by
      rw [bcastAdd_length_eq _ _ (by rw [hbc1len, hconvlen])]
      exact hbc1len
    apply List.ext_getElem
    · simp only [List.length_map, List.length_range]
      rw [hbc2len]
    · intro t h1 h2
      have ht : t < seqLen := by
        simp only [List.length_map, List.length_range] at h2
        exact h2
      simp only [List.getElem_map, List.getElem_range]
      rw [← List.getD_eq_getElem _ [] (by
        simp only [List.length_map] at h1 ⊢
        exact h1)]
      rw [bcastAdd_getD_eq _ _ seqLen t hbc1len hconvlen ht]
      rw [bcastAdd_singleton_left]
      rw [getD_map_in_range _ _ _ [] [] (by rw [List.length_map, hvb]; exact ht)]
      rw [getD_map_in_range _ _ _ [] [] (by rw [hvb]; exact ht)]
      rw [getD_map_in_range _ _ _ [] [] (by
        rw [transposeMat_length, conv1dOne_headD_length _ _ _ hF, hlab, hKw]
        omega)]
      rw [transposeMat_getD _ _ (by
        rw [conv1dOne_headD_length _ _ _ hF, hlab, hKw]
        omega)]
      rfl
  refine ⟨hp1, ?_⟩
  intro j hj
  have h1eq : (p.forward query value last_alignment).1 =
      List.zipWith (fun (ar : Vec) (vb : Mat) =>
        (List.range ((vb.headD []).length)).map
          (fun jj => (List.zipWith (fun a r => a * vget r jj) ar vb).sum))
        (p.forward query value last_alignment).2 value := rfl
  have h2lenb : b < (p.forward query value last_alignment).2.length := by
    rw [h2eq]
    simpa using hb2len
  have halenb : ((p.forward query value last_alignment).2.getD b []).length = seqLen := by
    rw [hp1, softmax_length, List.length_map, List.length_range]
  have hvbne : (value.getD b []) ≠ [] := by
    apply List.ne_nil_of_length_pos
    rw [hvb]
    exact hseq
  have hvbw : ((value.getD b []).headD []).length = emb := by
    have hmem : (value.getD b []).headD [] ∈ value.getD b [] := headD_mem [] hvbne
    have hvmem : value.getD b [] ∈ value := by
      rw [List.getD_eq_getElem value [] hbv]
      exact List.getElem_mem hbv
    exact hvw _ hvmem _ hmem
  rw [h1eq]
  rw [List.getD_eq_getElem _ [] (by
    rw [List.length_zipWith]
    omega)]
  rw [List.getElem_zipWith]
  rw [← List.getD_eq_getElem (p.forward query value last_alignment).2 [] h2lenb,
    ← List.getD_eq_getElem value [] hbv]
  rw [vget_range_map _ _ _ (by rw [hvbw]; exact hj)]
  rw [zipWith_vget_sum]
  rw [halenb, hvb, Nat.min_self]
  rfl

/-- Witness for C7 on the unit-width attention at batch index 0. -/
theorem attention_forward_characterization_witness :
    ((dUnit.attention.forward [[0]] [[[0], [0]]] [[[0, 0], [0, 0]]]).2.getD 0 [] =
      softmax ((List.range 2).map
        (attnEnergySpec dUnit.attention [0] [[0], [0]] [[0, 0], [0, 0]]))) ∧
    ∀ j, j < 1 →
      vget ((dUnit.attention.forward [[0]] [[[0], [0]]] [[[0, 0], [0, 0]]]).1.getD 0 []) j =
        ∑ t ∈ Finset.range 2,
          vget ((dUnit.attention.forward [[0]] [[[0], [0]]] [[[0, 0], [0, 0]]]).2.getD 0 []) t *
            mget [[0], [0]] t j := by
  have h := attention_forward_characterization dUnit.attention [[0]] [[[0], [0]]]
    [[[0, 0], [0, 0]]] 2 1 (by norm_num) (by simp) (by simp) (by simp) (by decide) (by decide)
    (List.cons_ne_nil _ _) 0 (by norm_num) (by norm_num) (by norm_num)
  simpa using h

/-- Witness for C6: the concrete attention of `dUnit` on a batch-1 input
with value-sequence length 2. -/
theorem attention_alignment_rows_are_distributions_witness :
    (∀ e ∈ ((dUnit.attention.forward [[0]] [[[0], [0]]] [[[0, 0], [0, 0]]]).2).headD [], 0 ≤ e) ∧
      (((dUnit.attention.forward [[0]] [[[0], [0]]] [[[0, 0], [0, 0]]]).2).headD []).sum = 1 := by
  have hne : ((dUnit.attention.forward [[0]] [[[0], [0]]] [[[0, 0], [0, 0]]]).2) ≠ [] := by
    apply List.ne_nil_of_length_pos
    have hlen : ((dUnit.attention.forward [[0]] [[[0], [0]]] [[[0, 0], [0, 0]]]).2).length = 1 := by
      rfl
    rw [hlen]
    norm_num
  exact attention_alignment_rows_are_distributions dUnit.attention [[0]] [[[0], [0]]]
    [[[0, 0], [0, 0]]] 2 (by norm_num) (by simp) (by simp) (by decide) (by decide)
    (by exact List.cons_ne_nil _ _) _ (headD_mem [] hne)

/-- Witness for the C10 theorem with an exhausted budget (`fuel = 0`): the
loop returns its accumulators unchanged and no stop step exists. -/
theorem autoreg_loop_length_witness :
    Decoder.autoLoop dUnit encUnit keepAll3 keepAll 0 0 (dUnit.init_decoder_states encUnit)
        (.t2 [[0]]) [] [] [] = .ok ([], [], []) ∧
      (([], [], []) : List Mat × List Mat × List Mat).1.length = 0 := by
  refine ⟨rfl, ?_⟩
  have h := autoreg_loop_length_is_first_stop_plus_one dUnit encUnit keepAll3 keepAll 0 0
    (dUnit.init_decoder_states encUnit) (.t2 [[0]]) [] [] [] ([], [], []) rfl
  rw [h.1]
  simp [Decoder.firstStopStep]

end Tacotron2
